import Mathlib

/-!
Shallow embedding of `jerry_in_a_box/song_database.py` (class `SongDatabase`
and dataclass `Song`), together with theorems checking the specification
claims about the chord-progression matcher, the catalog and the tokenizer.

Conventions of the embedding:
* Python strings are `String`; `str.lower()` is `strLower` and
  `str.upper()` is `strUpper`, per-character ASCII case maps.
* Python lists are `List`; out-of-range reads never happen on the guarded
  paths, so list reads use `List.getD` with default `""`.
* The Python `dict` keyed by lower-cased title is an association list
  `List (String × Song)`; `dictInsert` reproduces dict assignment
  (replace in place when the key exists, append otherwise), so that
  `.values()` iteration order (insertion order) is `List.map Prod.snd`.
* Machine floats (`similarity`) are modelled as rationals `ℚ`; the only
  arithmetic performed is `min 1 (m / n)` on small naturals, where the
  float and rational computations agree on the orderings used here.
* The dataclass `Song` carries no runtime type enforcement: the slot
  `all_chords` receives a plain string on one code path, hence its type
  in the model is `Sum String (List String)`.
-/

namespace JerryInABox

/-- Python `str.lower()`, as a per-character case map.  For the ASCII
chord tokens and titles handled here this agrees with the Unicode-aware
Python method. -/
def strLower (s : String) : String :=
  String.mk (s.data.map Char.toLower)

/-- Python `str.upper()`, as a per-character case map (ASCII-faithful,
as for `strLower`). -/
def strUpper (s : String) : String :=
  String.mk (s.data.map Char.toUpper)

/-- Embedding of the dataclass `Song`.  Field order matters: positional
construction `Song(a, b, c, d)` binds `d` to `all_chords`, not to
`source`.  The `sections` dict is never read by the modelled operations
and is kept as an association list. -/
structure Song where
  title : String
  artist : String
  progression : List String
  all_chords : Sum String (List String)
  source : String
  sections : List (String × String)
deriving DecidableEq

/-- Construction of a `Song` giving only title, artist and progression,
as `Song(**song_data)` does for the sample records: `__post_init__`
turns the missing `all_chords` into `[]` and `sections` into `{}`, and
`source` takes its declared default. -/
def Song.ofBasic (title artist : String) (progression : List String) : Song :=
  { title := title
    artist := artist
    progression := progression
    all_chords := Sum.inr []
    source := "Jerry Garcia Song Book"
    sections := [] }

/-- Python dict assignment `d[k] = v` on an insertion-ordered dict:
replace the value in place when the key is present, append otherwise. -/
def dictInsert (k : String) (v : Song) : List (String × Song) → List (String × Song)
  | [] => [(k, v)]
  | (k2, v2) :: rest => if k2 = k then (k, v) :: rest else (k2, v2) :: dictInsert k v rest

/-- Inner loop of `_find_best_match`, with the iteration counter split
into the current step `j` and the number `rem` of remaining iterations:
the loop header `for j in range(len(pattern))` runs `len(pattern)`
iterations, so the loop is entered with `j = 0` and
`rem = len(pattern)`, keeping `j + rem = len(pattern)`.  Inside, the
read is on the doubled progression
`extended_progression = progression * 2`, breaking when `i + j` runs off
its end, and the comparison is
`extended_progression[i+j].lower() == pattern[j % len(pattern)].lower()`. -/
def matchLenGo (pattern progression : List String) (i : Nat) : Nat → Nat → Nat
  | _, 0 => 0
  | j, rem + 1 =>
    if i + j < (progression ++ progression).length then
      if strLower ((progression ++ progression).getD (i + j) "")
          = strLower (pattern.getD (j % pattern.length) "") then
        matchLenGo pattern progression i (j + 1) rem + 1
      else 0
    else 0

/-- Run length of the greedy match at candidate offset `i`: the value of
`match_length` after the inner loop of `_find_best_match`. -/
def matchLen (pattern progression : List String) (i : Nat) : Nat :=
  matchLenGo pattern progression i 0 pattern.length

/-- Outer loop of `_find_best_match` over candidate offsets
`i in range(len(progression))` (again with the remaining iteration
count explicit: entered with `i = 0` and `rem = len(progression)`),
carrying `best_match_length` and `best_match_index` (initially `0` and
`-1`); the best is replaced only on a strictly longer run. -/
def bestLoopGo (pattern progression : List String) : Nat → Nat → Nat → Int → Int × Nat
  | 0, _, bestLen, bestIdx => (bestIdx, bestLen)
  | rem + 1, i, bestLen, bestIdx =>
    if bestLen < matchLen pattern progression i then
      bestLoopGo pattern progression rem (i + 1) (matchLen pattern progression i) (Int.ofNat i)
    else
      bestLoopGo pattern progression rem (i + 1) bestLen bestIdx

/-- Embedding of `SongDatabase._find_best_match`: returns
`(best_match_index, best_match_length)`. -/
def find_best_match (pattern progression : List String) : Int × Nat :=
  bestLoopGo pattern progression progression.length 0 0 (-1)

/-- One comparison step of the inner loop at offset `i`, step `j`: the
wrapped read stays inside the doubled progression and matches
`pattern[j % len(pattern)]` case-insensitively. -/
def stepMatches (pattern progression : List String) (i j : Nat) : Prop :=
  i + j < (progression ++ progression).length ∧
  strLower ((progression ++ progression).getD (i + j) "")
    = strLower (pattern.getD (j % pattern.length) "")

instance stepMatchesDecidable (pattern progression : List String) (i j : Nat) :
    Decidable (stepMatches pattern progression i j) := by
  unfold stepMatches
  infer_instance

/-- Run-length rule as the specification words it, for comparison with
the run length the code computes: the step counter `j` is unbounded and
the run stops only at the first mismatch or when the wrapped read would
pass twice the progression length.  Here `rem` counts the reads left
before `i + j` reaches `2 * len(progression)`, so the rule is entered
with `j = 0` and `rem = 2 * len(progression) - i`. -/
def claimRunGo (pattern progression : List String) (i : Nat) : Nat → Nat → Nat
  | _, 0 => 0
  | j, rem + 1 =>
    if strLower ((progression ++ progression).getD (i + j) "")
        = strLower (pattern.getD (j % pattern.length) "") then
      claimRunGo pattern progression i (j + 1) rem + 1
    else 0

/-- The greedy run length at offset `i` as the specification describes
it: unbounded in `j`, capped only by one extra lap of the progression. -/
def claimRunLen (pattern progression : List String) (i : Nat) : Nat :=
  claimRunGo pattern progression i 0 (2 * progression.length - i)

/-- One result entry of `find_similar_progressions`:
`(song, similarity_score, next_chords)`. -/
abbrev Entry := Song × ℚ × List String

/-- The float computation
`similarity = min(1.0, best_match_length / len(current_progression))`,
modelled over `ℚ` (the arguments are small naturals, where float and
rational arithmetic order identically). -/
def simScore (m n : Nat) : ℚ :=
  min 1 ((m : ℚ) / (n : ℚ))

/-- Body of the `for song in self.songs.values()` loop of
`find_similar_progressions`: skip a song with an empty progression
(`continue`), run `_find_best_match`, and when `best_match_length > 0`
build `(song, similarity, next_chords)` where
`similarity = min(1.0, best_match_length / len(current_progression))`,
`next_chord_index = (best_match_index + best_match_length) % len(song_progression)`
and `next_chords` reads five chords cyclically from there. -/
def entryOfSong (cur : List String) (song : Song) : Option Entry :=
  if song.progression = [] then none
  else
    let r := find_best_match cur song.progression
    if 0 < r.2 then
      let nextIdx : Nat := ((r.1 + (r.2 : Int)) % (song.progression.length : Int)).toNat
      let nexts : List String :=
        (List.range 5).map (fun k => song.progression.getD ((nextIdx + k) % song.progression.length) "")
      some (song, simScore r.2 cur.length, nexts)
    else none

/-- The `results` list accumulated by `find_similar_progressions`, in
catalog iteration order. -/
def resultsOf (songs : List Song) (cur : List String) : List Entry :=
  songs.filterMap (entryOfSong cur)

/-- Insertion step of a stable descending sort on the similarity
component: the new entry goes in front of the first already-placed entry
whose key is `≤` its own, so equal keys keep their input order. -/
def insertDesc (x : Entry) : List Entry → List Entry
  | [] => [x]
  | y :: ys => if y.2.1 ≤ x.2.1 then x :: y :: ys else y :: insertDesc x ys

/-- Stable descending sort on the similarity component.  This is
extensionally the Python call `results.sort(key=lambda x: x[1],
reverse=True)`: Python list sort is stable and `reverse=True` keeps
equal-key elements in their input order, and a stable sort under a total
preorder has a unique result. -/
def sortBySimDesc : List Entry → List Entry
  | [] => []
  | x :: xs => insertDesc x (sortBySimDesc xs)

/-- Embedding of `SongDatabase.find_similar_progressions`: empty query
returns `[]`; otherwise build the per-song results, sort by similarity
descending (stably) and keep the first `top_n`. -/
def find_similar_progressions (songs : List Song) (cur : List String) (topN : Nat) :
    List Entry :=
  if cur = [] then []
  else (sortBySimDesc (resultsOf songs cur)).take topN

/-- Embedding of `SongDatabase.add_song` acting on the catalog dict:
`self.songs[title.lower()] = Song(title, artist, progression, source)`.
The four arguments are positional, and the fourth positional parameter
of the dataclass `Song` is `all_chords`, so the `source` argument lands
in the `all_chords` slot while the `source` field takes its default. -/
def add_song (songs : List (String × Song)) (title artist : String)
    (progression : List String) (source : String) : List (String × Song) :=
  dictInsert (strLower title)
    { title := title
      artist := artist
      progression := progression
      all_chords := Sum.inl source
      source := "Jerry Garcia Song Book"
      sections := [] } songs

/-- True for a character matched by the regex class `[A-Ga-g]`. -/
def isNoteChar (c : Char) : Bool :=
  (decide ('A' ≤ c) && decide (c ≤ 'G')) || (decide ('a' ≤ c) && decide (c ≤ 'g'))

/-- True for a character matched by the regex class `[#b]`. -/
def isAccidental (c : Char) : Bool :=
  decide (c = '#') || decide (c = 'b')

/-- True for a character matched by the regex class `[/%|]`. -/
def isMarker (c : Char) : Bool :=
  decide (c = '/') || decide (c = '%') || decide (c = '|')

/-- Embedding of `re.findall(r'[A-Ga-g][#b]?|[/%|]', text)`: scan left to
right; at a note letter, greedily take one following accidental; at a
marker, take it alone; skip any other character. -/
def tokenize : List Char → List String
  | [] => []
  | [c] =>
    if isNoteChar c then [String.mk [c]]
    else if isMarker c then [String.mk [c]]
    else []
  | c :: c2 :: rest =>
    if isNoteChar c then
      if isAccidental c2 then String.mk [c, c2] :: tokenize rest
      else String.mk [c] :: tokenize (c2 :: rest)
    else if isMarker c then String.mk [c] :: tokenize (c2 :: rest)
    else tokenize (c2 :: rest)

/-- The repeat-marker action of the parse loop: append a duplicate of the
last appended token when the output is non-empty, do nothing otherwise
(`if progression: progression.append(progression[-1])`). -/
def appendRepeat (acc : List String) : List String :=
  match acc.getLast? with
  | some last => acc ++ [last]
  | none => acc

/-- The token loop of `parse_progression_from_text` with accumulator
`acc` (the `progression` list built so far): `|` is skipped, `%` and `/`
repeat the last chord, anything else is a chord appended upper-cased. -/
def parseTokens (acc : List String) : List String → List String
  | [] => acc
  | t :: rest =>
    if t = "|" then parseTokens acc rest
    else if t = "%" then parseTokens (appendRepeat acc) rest
    else if t = "/" then parseTokens (appendRepeat acc) rest
    else parseTokens (acc ++ [strUpper t]) rest

/-- Embedding of `SongDatabase.parse_progression_from_text`. -/
def parse_progression_from_text (text : String) : List String :=
  parseTokens [] (tokenize text.data)

/-- A well-formed persisted song record, with the four keys written by
`_save_songs`: title, artist, progression, source. -/
structure SongRecord where
  title : String
  artist : String
  progression : List String
  source : String
deriving DecidableEq

/-- The `Song(**song_data)` construction for a well-formed record:
keyword binding puts `source` in the `source` field, and
`__post_init__` fills `all_chords` and `sections`. -/
def Song.ofRecord (r : SongRecord) : Song :=
  { title := r.title
    artist := r.artist
    progression := r.progression
    all_chords := Sum.inr []
    source := r.source
    sections := [] }

/-- State of the persistent storage as seen by `_load_songs`: the JSON
file is absent (`FileNotFoundError`), present but not decodable or not
of the expected shape (`json.load` or the record access raises), or
present with a list of well-formed records. -/
inductive Storage where
  | missing
  | malformed
  | valid (records : List SongRecord)
deriving DecidableEq

/-- The three sample songs of `_initialize_sample_songs`, in order. -/
def sampleSongs : List Song :=
  [ Song.ofBasic "Ripple" "Grateful Dead"
      ["G", "C", "G", "D", "G", "C", "G", "D", "C", "G", "D", "G"],
    Song.ofBasic "Friend of the Devil" "Grateful Dead"
      ["Am", "C", "G", "D", "Am", "C", "G", "D", "F", "C", "G", "D"],
    Song.ofBasic "Scarlet Begonias" "Grateful Dead"
      ["G", "C", "G", "D", "C", "G", "D", "G"] ]

/-- The catalog built by `_initialize_sample_songs`: each sample record
is inserted under its lower-cased title. -/
def initializeSampleSongs : List (String × Song) :=
  sampleSongs.foldl (fun m s => dictInsert (strLower s.title) s m) []

/-- Embedding of `SongDatabase._load_songs` over a `Storage` state.
Returns the catalog together with a flag recording whether the seed data
was persisted back (`_initialize_sample_songs` ends in `_save_songs`),
or an error when an exception escapes.  Only `FileNotFoundError` is
caught: a present but undecodable file raises out of `_load_songs`. -/
def load_songs : Storage → Except Unit (List (String × Song) × Bool)
  | Storage.missing => Except.ok (initializeSampleSongs, true)
  | Storage.malformed => Except.error ()
  | Storage.valid records =>
      Except.ok
        (records.foldl
          (fun m r => dictInsert (strLower r.title) (Song.ofRecord r) m) [],
         false)

/-- A concrete catalog song with the four-chord loop G C G D, used to
check the worked circular-match example. -/
def songGCGD : Song :=
  Song.ofBasic "Song A" "Artist A" ["G", "C", "G", "D"]

/-- A concrete catalog song with a one-chord progression, used to check
the wrapping of the five next chords. -/
def songSoloG : Song :=
  Song.ofBasic "Solo" "Artist B" ["G"]

/-- Reading inside the left part of an append is reading the left part. -/
theorem getD_append_lt (l1 l2 : List String) (n : Nat) (hn : n < l1.length) (d : String) :
    (l1 ++ l2).getD n d = l1.getD n d := by
  rw [List.getD_eq_getElem?_getD, List.getD_eq_getElem?_getD, List.getElem?_append_left hn]

/-- The inner loop counts at most its remaining iterations. -/
theorem matchLenGo_le (pattern progression : List String) (i : Nat) :
    ∀ rem j, matchLenGo pattern progression i j rem ≤ rem := by
  intro rem
  induction rem with
  | zero => intro j; simp [matchLenGo]
  | succ rem ih =>
    intro j
    simp only [matchLenGo]
    split
    · split
      · have := ih (j + 1); omega
      · omega
    · omega

/-- The greedy run at any offset never exceeds the pattern length: the
inner loop header is `for j in range(len(pattern))`. -/
theorem matchLen_le (pattern progression : List String) (i : Nat) :
    matchLen pattern progression i ≤ pattern.length :=
  matchLenGo_le pattern progression i pattern.length 0

/-- Every counted step of the inner loop is a successful comparison. -/
theorem matchLenGo_matches (pattern progression : List String) (i : Nat) :
    ∀ rem j k, k < matchLenGo pattern progression i j rem →
      stepMatches pattern progression i (j + k) := by
  intro rem
  induction rem with
  | zero => intro j k hk; simp [matchLenGo] at hk
  | succ rem ih =>
    intro j k hk
    simp only [matchLenGo] at hk
    by_cases h1 : i + j < (progression ++ progression).length
    · rw [if_pos h1] at hk
      by_cases h2 : strLower ((progression ++ progression).getD (i + j) "")
          = strLower (pattern.getD (j % pattern.length) "")
      · rw [if_pos h2] at hk
        cases k with
        | zero => exact ⟨h1, h2⟩
        | succ k =>
          have hs := ih (j + 1) k (by omega)
          have heq : j + 1 + k = j + (k + 1) := by omega
          rw [heq] at hs
          exact hs
      · rw [if_neg h2] at hk; omega
    · rw [if_neg h1] at hk; omega

/-- When the inner loop stops short of exhausting its iterations, the
comparison right after the counted run fails. -/
theorem matchLenGo_stop (pattern progression : List String) (i : Nat) :
    ∀ rem j, matchLenGo pattern progression i j rem < rem →
      ¬ stepMatches pattern progression i (j + matchLenGo pattern progression i j rem) := by
  intro rem
  induction rem with
  | zero => intro j h; omega
  | succ rem ih =>
    intro j h
    simp only [matchLenGo] at h ⊢
    by_cases h1 : i + j < (progression ++ progression).length
    · rw [if_pos h1] at h ⊢
      by_cases h2 : strLower ((progression ++ progression).getD (i + j) "")
          = strLower (pattern.getD (j % pattern.length) "")
      · rw [if_pos h2] at h ⊢
        have h3 := ih (j + 1) (by omega)
        have heq : j + 1 + matchLenGo pattern progression i (j + 1) rem
            = j + (matchLenGo pattern progression i (j + 1) rem + 1) := by omega
        rw [heq] at h3
        exact h3
      · rw [if_neg h2] at h ⊢
        intro hs
        exact h2 hs.2
    · rw [if_neg h1] at h ⊢
      intro hs
      exact h1 hs.1

/-- Greedy characterization of the run length at offset `i`: it is
bounded by the pattern length, every counted step matches, and when it
stops short of the pattern length the next comparison fails. -/
theorem matchLen_greedy (pattern progression : List String) (i : Nat) :
    matchLen pattern progression i ≤ pattern.length ∧
    (∀ k, k < matchLen pattern progression i → stepMatches pattern progression i k) ∧
    (matchLen pattern progression i < pattern.length →
      ¬ stepMatches pattern progression i (matchLen pattern progression i)) := by
  refine ⟨matchLen_le pattern progression i, ?_, ?_⟩
  · intro k hk
    have hs := matchLenGo_matches pattern progression i pattern.length 0 k hk
    rw [Nat.zero_add] at hs
    exact hs
  · intro hlt
    have hs := matchLenGo_stop pattern progression i pattern.length 0 hlt
    rw [Nat.zero_add] at hs
    exact hs

/-- Invariant of the outer loop of `_find_best_match`: entering
iteration `i` with `rem` iterations left, a best length dominating all
earlier offsets, and a best index that is the lowest earlier offset
achieving it (`-1` while the best is `0`), the final pair dominates all
offsets, the final index is the lowest offset achieving the final
length when positive, and stays `-1` when the final length is `0`. -/
theorem bestLoopGo_spec (pattern progression : List String) :
    ∀ rem i bestLen bestIdx,
      i + rem = progression.length →
      (∀ j, j < i → matchLen pattern progression j ≤ bestLen) →
      (0 < bestLen → ∃ k : Nat, bestIdx = (k : Int) ∧ k < i ∧
        matchLen pattern progression k = bestLen ∧
        ∀ j, j < k → matchLen pattern progression j < bestLen) →
      (bestLen = 0 → bestIdx = -1) →
      (∀ j, j < progression.length → matchLen pattern progression j
          ≤ (bestLoopGo pattern progression rem i bestLen bestIdx).2) ∧
      bestLen ≤ (bestLoopGo pattern progression rem i bestLen bestIdx).2 ∧
      (0 < (bestLoopGo pattern progression rem i bestLen bestIdx).2 →
        ∃ k : Nat, (bestLoopGo pattern progression rem i bestLen bestIdx).1 = (k : Int) ∧
          k < progression.length ∧
          matchLen pattern progression k
            = (bestLoopGo pattern progression rem i bestLen bestIdx).2 ∧
          ∀ j, j < k → matchLen pattern progression j
            < (bestLoopGo pattern progression rem i bestLen bestIdx).2) ∧
      ((bestLoopGo pattern progression rem i bestLen bestIdx).2 = 0 →
        (bestLoopGo pattern progression rem i bestLen bestIdx).1 = -1) := by
  intro rem
  induction rem with
  | zero =>
    intro i bestLen bestIdx hlen hb hx hx0
    have hi : i = progression.length := by omega
    subst hi
    exact ⟨hb, le_refl _, hx, hx0⟩
  | succ rem ih =>
    intro i bestLen bestIdx hlen hb hx hx0
    simp only [bestLoopGo]
    by_cases hc : bestLen < matchLen pattern progression i
    · rw [if_pos hc]
      have h := ih (i + 1) (matchLen pattern progression i) (Int.ofNat i)
        (by omega)
        (fun j hj => by
          rcases Nat.lt_succ_iff_lt_or_eq.mp hj with h | h
          · exact le_of_lt (lt_of_le_of_lt (hb j h) hc)
          · subst h; exact le_refl _)
        (fun _ => ⟨i, rfl, Nat.lt_succ_self i, rfl,
          fun j hj => lt_of_le_of_lt (hb j hj) hc⟩)
        (fun h0 => by omega)
      exact ⟨h.1, le_trans (le_of_lt hc) h.2.1, h.2.2.1, h.2.2.2⟩
    · rw [if_neg hc]
      apply ih (i + 1) bestLen bestIdx
      · omega
      · intro j hj
        rcases Nat.lt_succ_iff_lt_or_eq.mp hj with h | h
        · exact hb j h
        · subst h; omega
      · intro hpos
        obtain ⟨k, hk1, hk2, hk3, hk4⟩ := hx hpos
        exact ⟨k, hk1, by omega, hk3, hk4⟩
      · exact hx0

/-- Specification of `find_best_match`: the returned length dominates
the greedy run of every offset; when positive, the returned index is
the lowest offset achieving it; when zero, the index is the sentinel
`-1`. -/
theorem find_best_match_spec (pattern progression : List String) :
    (∀ j, j < progression.length → matchLen pattern progression j
        ≤ (find_best_match pattern progression).2) ∧
    (0 < (find_best_match pattern progression).2 →
      ∃ k : Nat, (find_best_match pattern progression).1 = (k : Int) ∧
        k < progression.length ∧
        matchLen pattern progression k = (find_best_match pattern progression).2 ∧
        ∀ j, j < k → matchLen pattern progression j
          < (find_best_match pattern progression).2) ∧
    ((find_best_match pattern progression).2 = 0 →
      (find_best_match pattern progression).1 = -1) := by
  have h := bestLoopGo_spec pattern progression progression.length 0 0 (-1)
    (by omega)
    (fun j hj => absurd hj (Nat.not_lt_zero j))
    (fun h0 => absurd h0 (lt_irrefl 0))
    (fun _ => rfl)
  exact ⟨h.1, h.2.2.1, h.2.2.2⟩

/-- The greedy run at a valid offset is positive exactly when the chord
there matches the first pattern chord case-insensitively. -/
theorem matchLen_pos_iff (pattern progression : List String) (hp : pattern ≠ [])
    (i : Nat) (hi : i < progression.length) :
    0 < matchLen pattern progression i ↔
      strLower (progression.getD i "") = strLower (pattern.getD 0 "") := by
  unfold matchLen
  cases pattern with
  | nil => exact absurd rfl hp
  | cons a tl =>
    have hext : i + 0 < (progression ++ progression).length := by
      rw [List.length_append]; omega
    have hread : (progression ++ progression).getD (i + 0) "" = progression.getD i "" := by
      have : i + 0 = i := by omega
      rw [this]
      exact getD_append_lt progression progression i hi ""
    simp only [List.length_cons, matchLenGo, Nat.zero_mod]
    rw [if_pos hext, hread]
    by_cases heq : strLower (progression.getD i "") = strLower ((a :: tl).getD 0 "")
    · rw [if_pos heq]
      exact ⟨fun _ => heq, fun _ => Nat.succ_pos _⟩
    · rw [if_neg heq]
      exact ⟨fun h0 => absurd h0 (lt_irrefl 0), fun h0 => absurd h0 heq⟩

/-- Membership in the list after the insertion step. -/
theorem mem_insertDesc (x a : Entry) :
    ∀ l : List Entry, a ∈ insertDesc x l ↔ a = x ∨ a ∈ l := by
  intro l
  induction l with
  | nil => simp [insertDesc]
  | cons y ys ih =>
    simp only [insertDesc]
    split
    · simp [List.mem_cons]
    · simp only [List.mem_cons, ih]
      tauto

/-- The sorted results are drawn from the unsorted results. -/
theorem mem_of_mem_sortBySimDesc (a : Entry) :
    ∀ l : List Entry, a ∈ sortBySimDesc l → a ∈ l := by
  intro l
  induction l with
  | nil => simp [sortBySimDesc]
  | cons y ys ih =>
    intro h
    rw [sortBySimDesc, mem_insertDesc] at h
    rcases h with h | h
    · simp [h]
    · simp [ih h]

/-- The insertion step preserves the descending-similarity invariant. -/
theorem pairwise_insertDesc (x : Entry) :
    ∀ l : List Entry, List.Pairwise (fun a b : Entry => b.2.1 ≤ a.2.1) l →
      List.Pairwise (fun a b : Entry => b.2.1 ≤ a.2.1) (insertDesc x l) := by
  intro l
  induction l with
  | nil => intro _; simp [insertDesc]
  | cons y ys ih =>
    intro h
    rw [List.pairwise_cons] at h
    obtain ⟨hy, hys⟩ := h
    rw [insertDesc]
    split
    · rename_i hc
      rw [List.pairwise_cons]
      refine ⟨?_, List.pairwise_cons.mpr ⟨hy, hys⟩⟩
      intro z hz
      rcases List.mem_cons.mp hz with h | h
      · subst h; exact hc
      · exact le_trans (hy z h) hc
    · rename_i hc
      rw [List.pairwise_cons]
      refine ⟨?_, ih hys⟩
      intro z hz
      rcases (mem_insertDesc x z ys).mp hz with h | h
      · subst h; exact le_of_lt (lt_of_not_le hc)
      · exact hy z h

/-- The sorted results are in descending similarity order. -/
theorem pairwise_sortBySimDesc :
    ∀ l : List Entry,
      List.Pairwise (fun a b : Entry => b.2.1 ≤ a.2.1) (sortBySimDesc l) := by
  intro l
  induction l with
  | nil => simp [sortBySimDesc]
  | cons y ys ih => exact pairwise_insertDesc y (sortBySimDesc ys) ih

/-- The insertion step places the new entry in front of the equal-key
entries already present, so restricting to one similarity value just
prepends it. -/
theorem filter_insertDesc (q : ℚ) (x : Entry) :
    ∀ l : List Entry,
      (insertDesc x l).filter (fun e => decide (e.2.1 = q)) =
        if x.2.1 = q then x :: l.filter (fun e => decide (e.2.1 = q))
        else l.filter (fun e => decide (e.2.1 = q)) := by
  intro l
  induction l with
  | nil =>
    by_cases hx : x.2.1 = q <;> simp [insertDesc, List.filter, hx]
  | cons y ys ih =>
    rw [insertDesc]
    split
    · rename_i hc
      by_cases hx : x.2.1 = q <;> simp [List.filter_cons, hx]
    · rename_i hc
      by_cases hx : x.2.1 = q
      · have hy : ¬ y.2.1 = q := by
          intro h
          exact hc (le_of_eq (h.trans hx.symm))
        simp [List.filter_cons, hx, hy, ih]
      · by_cases hy : y.2.1 = q <;> simp [List.filter_cons, hx, hy, ih]

/-- Stability of the sort: the entries carrying any fixed similarity
value appear in the sorted list exactly as they appear in the unsorted
results (hence in catalog iteration order). -/
theorem filter_sortBySimDesc (q : ℚ) :
    ∀ l : List Entry,
      (sortBySimDesc l).filter (fun e => decide (e.2.1 = q)) =
        l.filter (fun e => decide (e.2.1 = q)) := by
  intro l
  induction l with
  | nil => simp [sortBySimDesc]
  | cons y ys ih =>
    rw [sortBySimDesc, filter_insertDesc]
    by_cases hy : y.2.1 = q <;> simp [List.filter_cons, hy, ih]

/-- Inversion of the per-song loop body: a produced entry carries the
song itself, a positive best length, the similarity score of that
length, and the five cyclically-read next chords. -/
theorem entryOfSong_some (cur : List String) (song : Song) (e : Entry)
    (h : entryOfSong cur song = some e) :
    song.progression ≠ [] ∧
    0 < (find_best_match cur song.progression).2 ∧
    e.1 = song ∧
    e.2.1 = simScore (find_best_match cur song.progression).2 cur.length ∧
    e.2.2 = (List.range 5).map (fun k =>
      song.progression.getD
        (((((find_best_match cur song.progression).1
              + ((find_best_match cur song.progression).2 : Int))
            % (song.progression.length : Int)).toNat + k)
          % song.progression.length) "") := by
  unfold entryOfSong at h
  by_cases hp : song.progression = []
  · rw [if_pos hp] at h
    exact absurd h (by simp)
  · rw [if_neg hp] at h
    simp only at h
    by_cases hl : 0 < (find_best_match cur song.progression).2
    · rw [if_pos hl] at h
      have he := Option.some.inj h
      subst he
      exact ⟨hp, hl, rfl, rfl, rfl⟩
    · rw [if_neg hl] at h
      exact absurd h (by simp)

/-- A returned entry comes from some catalog song through the loop body. -/
theorem mem_find_similar (songs : List Song) (cur : List String) (topN : Nat) (e : Entry)
    (h : e ∈ find_similar_progressions songs cur topN) :
    ∃ song ∈ songs, entryOfSong cur song = some e := by
  unfold find_similar_progressions at h
  by_cases hc : cur = []
  · rw [if_pos hc] at h
    exact absurd h (by simp)
  · rw [if_neg hc] at h
    have h1 : e ∈ sortBySimDesc (resultsOf songs cur) :=
      (List.take_sublist topN _).mem h
    have h2 : e ∈ resultsOf songs cur := mem_of_mem_sortBySimDesc e _ h1
    exact List.mem_filterMap.mp h2

/-- Claim C1, counterexample: on pattern `["G"]` and progression
`["G", "G"]` the rule of the claim (unbounded step counter, stopping
only at a mismatch or after one extra lap of the progression) yields a
run of `4` at offset `0`, cycling through the pattern again, while the
code returns a match length of `1`: the inner loop never runs past one
pass of the pattern. -/
theorem claim_C1_counterexample :
    find_best_match ["G"] ["G", "G"] = (0, 1) ∧
    claimRunLen ["G"] ["G", "G"] 0 = 4 ∧
    (find_best_match ["G"] ["G", "G"]).2 ≠ claimRunLen ["G"] ["G", "G"] 0 := by
  decide

/-- Claim C1, amended: for non-empty pattern and progression, the greedy
run at each candidate offset compares the wrapped progression read at
`i + j` against `pattern[j % len(pattern)]` case-insensitively for
`j = 0 .. len(pattern) - 1` only, stopping at the first mismatch, at
the end of the pattern, or when the wrapped read would pass twice the
progression length; the run never exceeds one pass of the pattern, and
the returned match length is one of these runs (or zero) and dominates
them all. -/
theorem claim_C1_amended (pattern progression : List String)
    (hp : pattern ≠ []) (hq : progression ≠ [])
    (i : Nat) (hi : i < progression.length) :
    matchLen pattern progression i ≤ pattern.length ∧
    (∀ k, k < matchLen pattern progression i → stepMatches pattern progression i k) ∧
    (matchLen pattern progression i < pattern.length →
      ¬ stepMatches pattern progression i (matchLen pattern progression i)) ∧
    matchLen pattern progression i ≤ (find_best_match pattern progression).2 ∧
    ((find_best_match pattern progression).2 = 0 ∨
      ∃ k, k < progression.length ∧
        (find_best_match pattern progression).2 = matchLen pattern progression k) := by
  obtain ⟨h1, h2, h3⟩ := matchLen_greedy pattern progression i
  obtain ⟨s1, s2, s3⟩ := find_best_match_spec pattern progression
  refine ⟨h1, h2, h3, s1 i hi, ?_⟩
  rcases Nat.eq_zero_or_pos (find_best_match pattern progression).2 with h0 | h0
  · exact Or.inl h0
  · obtain ⟨k, _, hk2, hk3, _⟩ := s2 h0
    exact Or.inr ⟨k, hk2, hk3.symm⟩

/-- Claim C1, witness of the amended theorem at pattern `["D", "G"]`,
progression `["G", "C", "G", "D"]` and offset `3`. -/
theorem claim_C1_witness :
    (["D", "G"] : List String) ≠ [] ∧
    (["G", "C", "G", "D"] : List String) ≠ [] ∧
    3 < (["G", "C", "G", "D"] : List String).length ∧
    (matchLen ["D", "G"] ["G", "C", "G", "D"] 3 ≤ (["D", "G"] : List String).length ∧
    (∀ k, k < matchLen ["D", "G"] ["G", "C", "G", "D"] 3 →
      stepMatches ["D", "G"] ["G", "C", "G", "D"] 3 k) ∧
    (matchLen ["D", "G"] ["G", "C", "G", "D"] 3 < (["D", "G"] : List String).length →
      ¬ stepMatches ["D", "G"] ["G", "C", "G", "D"] 3
        (matchLen ["D", "G"] ["G", "C", "G", "D"] 3)) ∧
    matchLen ["D", "G"] ["G", "C", "G", "D"] 3
      ≤ (find_best_match ["D", "G"] ["G", "C", "G", "D"]).2 ∧
    ((find_best_match ["D", "G"] ["G", "C", "G", "D"]).2 = 0 ∨
      ∃ k, k < (["G", "C", "G", "D"] : List String).length ∧
        (find_best_match ["D", "G"] ["G", "C", "G", "D"]).2
          = matchLen ["D", "G"] ["G", "C", "G", "D"] k)) :=
  ⟨by decide, by decide, by decide,
    claim_C1_amended ["D", "G"] ["G", "C", "G", "D"] (by decide) (by decide) 3 (by decide)⟩

/-- Claim C2: for non-empty pattern and progression, the returned match
length lies between `0` and the pattern length. -/
theorem claim_C2 (pattern progression : List String)
    (hp : pattern ≠ []) (hq : progression ≠ []) :
    0 ≤ (find_best_match pattern progression).2 ∧
    (find_best_match pattern progression).2 ≤ pattern.length := by
  refine ⟨Nat.zero_le _, ?_⟩
  obtain ⟨s1, s2, s3⟩ := find_best_match_spec pattern progression
  rcases Nat.eq_zero_or_pos (find_best_match pattern progression).2 with h0 | h0
  · omega
  · obtain ⟨k, _, _, hk3, _⟩ := s2 h0
    rw [← hk3]
    exact matchLen_le pattern progression k

/-- Claim C2, witness at pattern `["D", "G"]` and progression
`["G", "C", "G", "D"]`. -/
theorem claim_C2_witness :
    (["D", "G"] : List String) ≠ [] ∧
    (["G", "C", "G", "D"] : List String) ≠ [] ∧
    (0 ≤ (find_best_match ["D", "G"] ["G", "C", "G", "D"]).2 ∧
      (find_best_match ["D", "G"] ["G", "C", "G", "D"]).2
        ≤ (["D", "G"] : List String).length) :=
  ⟨by decide, by decide,
    claim_C2 ["D", "G"] ["G", "C", "G", "D"] (by decide) (by decide)⟩

/-- Claim C5: on progression G C G D and pattern D G, the best match
starts at offset `3` with length `2`, the similarity is `1`, and the
five next chords, read cyclically from `(3 + 2) % 4 = 1`, are
C G D G C. -/
theorem claim_C5 :
    find_best_match ["D", "G"] ["G", "C", "G", "D"] = (3, 2) ∧
    find_similar_progressions [songGCGD] ["D", "G"] 5
      = [(songGCGD, 1, ["C", "G", "D", "G", "C"])] := by
  refine ⟨by decide, ?_⟩
  have h0 : find_similar_progressions [songGCGD] ["D", "G"] 5
      = [(songGCGD, simScore 2 2, ["C", "G", "D", "G", "C"])] := rfl
  have hs : simScore 2 2 = 1 := by unfold simScore; norm_num
  rw [h0, hs]

/-- Claim C6: for non-empty pattern and progression, the matcher
returns length `0` with the sentinel index `-1` exactly when no offset
of the progression matches the first pattern chord case-insensitively;
and as soon as one offset matches, the length is positive and the index
is a valid offset. -/
theorem claim_C6 (pattern progression : List String)
    (hp : pattern ≠ []) (hq : progression ≠ []) :
    (((find_best_match pattern progression).2 = 0 ∧
        (find_best_match pattern progression).1 = -1) ↔
      ∀ i, i < progression.length →
        strLower (progression.getD i "") ≠ strLower (pattern.getD 0 "")) ∧
    ((∃ i, i < progression.length ∧
        strLower (progression.getD i "") = strLower (pattern.getD 0 "")) →
      0 < (find_best_match pattern progression).2 ∧
      ∃ k : Nat, (find_best_match pattern progression).1 = (k : Int) ∧
        k < progression.length) := by
  obtain ⟨s1, s2, s3⟩ := find_best_match_spec pattern progression
  have hpos : ∀ i, i < progression.length →
      (strLower (progression.getD i "") = strLower (pattern.getD 0 "") →
        0 < (find_best_match pattern progression).2) := by
    intro i hi heq
    have h := (matchLen_pos_iff pattern progression hp i hi).mpr heq
    exact lt_of_lt_of_le h (s1 i hi)
  constructor
  · constructor
    · rintro ⟨h0, _⟩ i hi heq
      have h := hpos i hi heq
      omega
    · intro hall
      have h0 : (find_best_match pattern progression).2 = 0 := by
        by_contra hne
        have hp0 : 0 < (find_best_match pattern progression).2 := by omega
        obtain ⟨k, _, hk2, hk3, _⟩ := s2 hp0
        have : 0 < matchLen pattern progression k := by omega
        exact hall k hk2 ((matchLen_pos_iff pattern progression hp k hk2).mp this)
      exact ⟨h0, s3 h0⟩
  · rintro ⟨i, hi, heq⟩
    have h0 := hpos i hi heq
    obtain ⟨k, hk1, hk2, _, _⟩ := s2 h0
    exact ⟨h0, k, hk1, hk2⟩

/-- Claim C6, witness at pattern `["F"]` and progression `["G", "C"]`
(the no-match example). -/
theorem claim_C6_witness :
    (["F"] : List String) ≠ [] ∧
    (["G", "C"] : List String) ≠ [] ∧
    ((((find_best_match ["F"] ["G", "C"]).2 = 0 ∧
        (find_best_match ["F"] ["G", "C"]).1 = -1) ↔
      ∀ i, i < (["G", "C"] : List String).length →
        strLower ((["G", "C"] : List String).getD i "")
          ≠ strLower ((["F"] : List String).getD 0 "")) ∧
    ((∃ i, i < (["G", "C"] : List String).length ∧
        strLower ((["G", "C"] : List String).getD i "")
          = strLower ((["F"] : List String).getD 0 "")) →
      0 < (find_best_match ["F"] ["G", "C"]).2 ∧
      ∃ k : Nat, (find_best_match ["F"] ["G", "C"]).1 = (k : Int) ∧
        k < (["G", "C"] : List String).length)) :=
  ⟨by decide, by decide, claim_C6 ["F"] ["G", "C"] (by decide) (by decide)⟩

/-- Claim C7: whenever the returned match length is positive, the
returned start index is the lowest offset achieving the maximal greedy
run: it achieves the returned length, every offset is dominated by it,
and every earlier offset has a strictly shorter run. -/
theorem claim_C7 (pattern progression : List String)
    (hp : pattern ≠ []) (hq : progression ≠ [])
    (hpos : 0 < (find_best_match pattern progression).2) :
    ∃ k : Nat, (find_best_match pattern progression).1 = (k : Int) ∧
      k < progression.length ∧
      matchLen pattern progression k = (find_best_match pattern progression).2 ∧
      (∀ j, j < progression.length →
        matchLen pattern progression j ≤ (find_best_match pattern progression).2) ∧
      (∀ j, j < k →
        matchLen pattern progression j < (find_best_match pattern progression).2) := by
  obtain ⟨s1, s2, s3⟩ := find_best_match_spec pattern progression
  obtain ⟨k, hk1, hk2, hk3, hk4⟩ := s2 hpos
  exact ⟨k, hk1, hk2, hk3, s1, hk4⟩

/-- Claim C7, witness at pattern `["D", "G"]` and progression
`["G", "C", "G", "D"]`, whose best run has length `2`. -/
theorem claim_C7_witness :
    (["D", "G"] : List String) ≠ [] ∧
    (["G", "C", "G", "D"] : List String) ≠ [] ∧
    0 < (find_best_match ["D", "G"] ["G", "C", "G", "D"]).2 ∧
    (∃ k : Nat, (find_best_match ["D", "G"] ["G", "C", "G", "D"]).1 = (k : Int) ∧
      k < (["G", "C", "G", "D"] : List String).length ∧
      matchLen ["D", "G"] ["G", "C", "G", "D"] k
        = (find_best_match ["D", "G"] ["G", "C", "G", "D"]).2 ∧
      (∀ j, j < (["G", "C", "G", "D"] : List String).length →
        matchLen ["D", "G"] ["G", "C", "G", "D"] j
          ≤ (find_best_match ["D", "G"] ["G", "C", "G", "D"]).2) ∧
      (∀ j, j < k →
        matchLen ["D", "G"] ["G", "C", "G", "D"] j
          < (find_best_match ["D", "G"] ["G", "C", "G", "D"]).2)) :=
  ⟨by decide, by decide, by decide,
    claim_C7 ["D", "G"] ["G", "C", "G", "D"] (by decide) (by decide) (by decide)⟩

/-- Claim C8: for a non-empty query, the returned list is the stable
descending-similarity sort of the per-song results truncated to the
first `top_n` entries: it is pairwise descending in similarity, the
entries of each similarity value keep their catalog iteration order,
and at most `top_n` entries are returned. -/
theorem claim_C8 (songs : List Song) (cur : List String) (topN : Nat) (h : cur ≠ []) :
    find_similar_progressions songs cur topN
      = (sortBySimDesc (resultsOf songs cur)).take topN ∧
    List.Pairwise (fun a b : Entry => b.2.1 ≤ a.2.1)
      (find_similar_progressions songs cur topN) ∧
    (∀ q : ℚ,
      (sortBySimDesc (resultsOf songs cur)).filter (fun e => decide (e.2.1 = q)) =
        (resultsOf songs cur).filter (fun e => decide (e.2.1 = q))) ∧
    (find_similar_progressions songs cur topN).length ≤ topN := by
  have h1 : find_similar_progressions songs cur topN
      = (sortBySimDesc (resultsOf songs cur)).take topN := by
    unfold find_similar_progressions
    rw [if_neg h]
  refine ⟨h1, ?_, fun q => filter_sortBySimDesc q _, ?_⟩
  · rw [h1]
    exact List.Pairwise.sublist (List.take_sublist _ _) (pairwise_sortBySimDesc _)
  · rw [h1, List.length_take]
    exact min_le_left _ _

/-- Claim C8, witness at the singleton catalog holding the G C G D song
and query `["D", "G"]`. -/
theorem claim_C8_witness :
    (["D", "G"] : List String) ≠ [] ∧
    (find_similar_progressions [songGCGD] ["D", "G"] 5
      = (sortBySimDesc (resultsOf [songGCGD] ["D", "G"])).take 5 ∧
    List.Pairwise (fun a b : Entry => b.2.1 ≤ a.2.1)
      (find_similar_progressions [songGCGD] ["D", "G"] 5) ∧
    (∀ q : ℚ,
      (sortBySimDesc (resultsOf [songGCGD] ["D", "G"])).filter (fun e => decide (e.2.1 = q)) =
        (resultsOf [songGCGD] ["D", "G"]).filter (fun e => decide (e.2.1 = q))) ∧
    (find_similar_progressions [songGCGD] ["D", "G"] 5).length ≤ 5) :=
  ⟨by decide, claim_C8 [songGCGD] ["D", "G"] 5 (by decide)⟩

/-- Claim C9: a repeat marker, `%` or `/`, appends a duplicate of the
last appended token when the output so far is non-empty and is a no-op
when the output is empty; in particular parsing "G % D" gives G G D and
parsing "% G" gives G. -/
theorem claim_C9 :
    (∀ (acc : List String) (last : String) (rest : List String),
      acc.getLast? = some last →
        parseTokens acc ("%" :: rest) = parseTokens (acc ++ [last]) rest ∧
        parseTokens acc ("/" :: rest) = parseTokens (acc ++ [last]) rest) ∧
    (∀ rest : List String,
      parseTokens [] ("%" :: rest) = parseTokens [] rest ∧
      parseTokens [] ("/" :: rest) = parseTokens [] rest) ∧
    parse_progression_from_text "G % D" = ["G", "G", "D"] ∧
    parse_progression_from_text "% G" = ["G"] := by
  refine ⟨?_, ?_, by decide, by decide⟩
  · intro acc last rest h
    have e2 : appendRepeat acc = acc ++ [last] := by
      unfold appendRepeat
      rw [h]
    constructor
    · calc parseTokens acc ("%" :: rest) = parseTokens (appendRepeat acc) rest := rfl
        _ = parseTokens (acc ++ [last]) rest := by rw [e2]
    · calc parseTokens acc ("/" :: rest) = parseTokens (appendRepeat acc) rest := rfl
        _ = parseTokens (acc ++ [last]) rest := by rw [e2]
  · intro rest
    exact ⟨rfl, rfl⟩

/-- Claim C9, witness: a conjunct with its hypothesis discharged at the
concrete output `["G"]` and marker `%`. -/
theorem claim_C9_witness :
    (["G"] : List String).getLast? = some "G" ∧
    parseTokens ["G"] ["%"] = parseTokens (["G"] ++ ["G"]) [] :=
  ⟨rfl, (claim_C9.1 ["G"] "G" [] rfl).1⟩

/-- Claim C10: every returned entry carries exactly five next chords,
read cyclically from the song progression starting at
`(best_match_index + best_match_length) % len(progression)`, wrapping
as often as needed. -/
theorem claim_C10 (songs : List Song) (cur : List String) (topN : Nat) (e : Entry)
    (h : e ∈ find_similar_progressions songs cur topN) :
    e.2.2.length = 5 ∧
    ∀ k, k < 5 → e.2.2.getD k "" =
      e.1.progression.getD
        (((((find_best_match cur e.1.progression).1
              + ((find_best_match cur e.1.progression).2 : Int))
            % (e.1.progression.length : Int)).toNat + k)
          % e.1.progression.length) "" := by
  obtain ⟨song, hmem, hsome⟩ := mem_find_similar songs cur topN e h
  obtain ⟨hne, hpos, h1, hsim, h22⟩ := entryOfSong_some cur song e hsome
  subst h1
  constructor
  · rw [h22]
    simp
  · intro k hk
    rw [h22, List.getD_eq_getElem?_getD, List.getElem?_map, List.getElem?_range hk]
    simp

/-- Claim C10, witness at the one-chord song, whose five next chords
wrap around the single chord G five times. -/
theorem claim_C10_witness :
    (((songSoloG, simScore 1 1, ["G", "G", "G", "G", "G"]) : Entry)
        ∈ find_similar_progressions [songSoloG] ["G"] 5) ∧
    (((songSoloG, simScore 1 1, ["G", "G", "G", "G", "G"]) : Entry).2.2.length = 5 ∧
      ∀ k, k < 5 →
        ((songSoloG, simScore 1 1, ["G", "G", "G", "G", "G"]) : Entry).2.2.getD k "" =
          ((songSoloG, simScore 1 1, ["G", "G", "G", "G", "G"]) : Entry).1.progression.getD
            (((((find_best_match ["G"]
                    ((songSoloG, simScore 1 1,
                      ["G", "G", "G", "G", "G"]) : Entry).1.progression).1
                  + ((find_best_match ["G"]
                      ((songSoloG, simScore 1 1,
                        ["G", "G", "G", "G", "G"]) : Entry).1.progression).2 : Int))
                % (((songSoloG, simScore 1 1,
                    ["G", "G", "G", "G", "G"]) : Entry).1.progression.length : Int)).toNat
              + k)
            % ((songSoloG, simScore 1 1,
                ["G", "G", "G", "G", "G"]) : Entry).1.progression.length) "") := by
  have hfs : find_similar_progressions [songSoloG] ["G"] 5
      = [(songSoloG, simScore 1 1, ["G", "G", "G", "G", "G"])] := rfl
  have hm : ((songSoloG, simScore 1 1, ["G", "G", "G", "G", "G"]) : Entry)
      ∈ find_similar_progressions [songSoloG] ["G"] 5 := by
    rw [hfs]
    exact List.mem_singleton.mpr rfl
  exact ⟨hm, claim_C10 [songSoloG] ["G"] 5 _ hm⟩

/-- Claim C3, the observed defect: `add_song` passes its `source`
argument as the fourth positional argument of the dataclass
constructor, which is `all_chords`, so the stored record keeps the
default `source` and carries the argument in `all_chords` instead. -/
theorem claim_C3_bug :
    add_song [] "Test Song" "Artist" ["G"] "Custom Source"
      = [("test song",
          { title := "Test Song", artist := "Artist", progression := ["G"],
            all_chords := Sum.inl "Custom Source",
            source := "Jerry Garcia Song Book", sections := [] })] ∧
    (add_song [] "Test Song" "Artist" ["G"] "Custom Source").map
        (fun kv => (kv.2.source, kv.2.all_chords))
      = [("Jerry Garcia Song Book", Sum.inl "Custom Source")] ∧
    "Jerry Garcia Song Book" ≠ "Custom Source" := by
  decide

/-- Claim C4, counterexample: a present but undecodable storage file is
not recovered; `_load_songs` catches only `FileNotFoundError`, so the
decode failure escapes to the caller instead of producing the seed
catalog. -/
theorem claim_C4_counterexample :
    load_songs Storage.malformed = Except.error () ∧
    load_songs Storage.malformed ≠ Except.ok (initializeSampleSongs, true) := by
  refine ⟨rfl, ?_⟩
  intro hc
  rw [show load_songs Storage.malformed = Except.error () from rfl] at hc
  exact Except.noConfusion hc

/-- Claim C4, amended: only MISSING storage falls back to (and
persists) the fixed built-in seed set of three sample songs; a present
but malformed storage state surfaces the failure to the caller of
load. -/
theorem claim_C4_amended :
    load_songs Storage.missing = Except.ok (initializeSampleSongs, true) ∧
    initializeSampleSongs.map Prod.fst
      = ["ripple", "friend of the devil", "scarlet begonias"] ∧
    (initializeSampleSongs.map (fun kv => kv.2.title))
      = ["Ripple", "Friend of the Devil", "Scarlet Begonias"] ∧
    load_songs Storage.malformed = Except.error () := by
  refine ⟨rfl, by decide, by decide, rfl⟩

end JerryInABox
